import Mathlib

/-!
# Verification of the data-broker core (query algebra, HTTP translation, codecs, REST builder)

This development shallowly embeds the core of the data-broker library:
the query AST and its local evaluation (`src/query/combinators.rs`), the
HTTP translation layer (`src/query/translate/http.rs`), the JSON codec
(`src/encode/json.rs`), the `Encode`/`Decode` trait wiring (`src/encode.rs`),
the error conversions (`src/errors.rs`), and the REST connector builder
(`src/rest/builder.rs`).

Records are an abstract type `α`; field values live in an abstract type `V`
with decidable equality (modelling well-behaved `PartialEq`), comparison
functions `lt`/`gt` (modelling `PartialOrd::lt`/`gt`), a `toStr` display
function (modelling `Display::to_string`) and a `toDebug` function
(modelling the alternate `{:#?}` rendering of values).
-/

namespace Broker

/-- A field handle: a display name plus a projection from a record of type `α`
to a value of type `V`.  Mirrors `Field<T, V, NAME>` in `src/query.rs`, whose
`NAME` const parameter and getter are the only data relevant here. -/
structure HField (α V : Type) where
  name : String
  get : α → V

/-- Deep embedding of the query AST of `src/query/combinators.rs`:
primitives `True`, `Eq`, `Ne`, `Gt`, `Lt` and combinators `And`, `Or`, `Xor`,
`Not`, plus the `Either` runtime choice (from the `either` crate) which holds
one of two subqueries (`Left` or `Right`). -/
inductive HQ (α V : Type) where
  | htrue : HQ α V
  | heq (f : HField α V) (v : V) : HQ α V
  | hne (f : HField α V) (v : V) : HQ α V
  | hgt (f : HField α V) (v : V) : HQ α V
  | hlt (f : HField α V) (v : V) : HQ α V
  | hand (l r : HQ α V) : HQ α V
  | hor (l r : HQ α V) : HQ α V
  | hxor (l r : HQ α V) : HQ α V
  | hnot (q : HQ α V) : HQ α V
  | heitherL (q : HQ α V) : HQ α V
  | heitherR (q : HQ α V) : HQ α V

variable {α V : Type}

/-- Local evaluation, `Query::evaluate` of `src/query/combinators.rs`:
`True` is `true`; `Eq`/`Ne` compare the projected field value with `==`/`!=`;
`Gt`/`Lt` use the order's `>`/`<` (passed in as `gt`/`lt`); `And`/`Or` are
`&&`/`||`; `Xor` is `^` with both sides evaluated; `Not` is `!`; `Either`
evaluates whichever variant it holds. -/
def HQ.evaluate [DecidableEq V] (lt gt : V → V → Bool) : HQ α V → α → Bool
  | .htrue, _ => true
  | .heq f v, r => f.get r == v
  | .hne f v, r => f.get r != v
  | .hgt f v, r => gt (f.get r) v
  | .hlt f v, r => lt (f.get r) v
  | .hand l rq, r => l.evaluate lt gt r && rq.evaluate lt gt r
  | .hor l rq, r => l.evaluate lt gt r || rq.evaluate lt gt r
  | .hxor l rq, r => (l.evaluate lt gt r).xor (rq.evaluate lt gt r)
  | .hnot q, r => !(q.evaluate lt gt r)
  | .heitherL q, r => q.evaluate lt gt r
  | .heitherR q, r => q.evaluate lt gt r

/-- `HttpQuery` of `src/query/translate/http.rs`: key-value pairs ready to be
serialized as HTTP parameters, with duplicate keys and key order preserved. -/
abbrev HttpQuery := List (String × String)

/-- `ToHttp::to_http_single` of `src/query/translate/http.rs`.  The result is
`none` exactly when the Rust trait `ToHttp` is not implemented for the node
(queries containing `Either` outside a `Not`); otherwise it is the pair of the
parameter list and the residue list of `Single`:

* `True` ↦ `([], [])`;
* `Eq(f,v)` ↦ `([(NAME, v.to_string())], [])`;
* `Ne`/`Gt`/`Lt` ↦ `([], [self])`;
* `And` appends both parameter lists and both residues;
* `Or` retains the left parameters also present in the right parameter list
  (`query.retain(|z| rhs_query.contains(z))`) and appends the residues;
* `Xor` is `Or`'s translation with `self` pushed onto the residue;
* `Not(q)` ↦ `([], [self])` (implemented for any inner `Query`). -/
def HQ.toHttpSingle (toStr : V → String) :
    HQ α V → Option (HttpQuery × List (HQ α V))
  | .htrue => some ([], [])
  | .heq f v => some ([(f.name, toStr v)], [])
  | .hne f v => some ([], [.hne f v])
  | .hgt f v => some ([], [.hgt f v])
  | .hlt f v => some ([], [.hlt f v])
  | .hand l r =>
    match l.toHttpSingle toStr, r.toHttpSingle toStr with
    | some (q1, r1), some (q2, r2) => some (q1 ++ q2, r1 ++ r2)
    | _, _ => none
  | .hor l r =>
    match l.toHttpSingle toStr, r.toHttpSingle toStr with
    | some (q1, r1), some (q2, r2) =>
      some (q1.filter (fun z => decide (z ∈ q2)), r1 ++ r2)
    | _, _ => none
  | .hxor l r =>
    match l.toHttpSingle toStr, r.toHttpSingle toStr with
    | some (q1, r1), some (q2, r2) =>
      some (q1.filter (fun z => decide (z ∈ q2)), (r1 ++ r2) ++ [.hxor l r])
    | _, _ => none
  | .hnot q => some ([], [.hnot q])
  | .heitherL _ => none
  | .heitherR _ => none

/-- The nested-loop cartesian product of `And::to_http_multi`:
`for l in &lhs { for r in &rhs { result.push(l ++ r) } }`. -/
def cartQueries : List HttpQuery → List HttpQuery → List HttpQuery
  | [], _ => []
  | l :: ls, rs => rs.map (fun r => l ++ r) ++ cartQueries ls rs

/-- `ToHttp::to_http_multi` of `src/query/translate/http.rs`.  The outer
`Option` is `none` exactly when the Rust trait `ToHttp` is not implemented for
the node; the inner `Option` is the Rust return value (`None` = translation
impossible):

* `True` ↦ `Some [[]]`;
* `Eq(f,v)` ↦ `Some [[(NAME, v.to_string())]]`;
* `Ne`/`Gt`/`Lt`/`Not` ↦ `None`;
* `And` ↦ the cartesian product of both sides' parts;
* `Or` ↦ the concatenation of both sides' parts;
* `Xor` ↦ `None`. -/
def HQ.toHttpMulti (toStr : V → String) :
    HQ α V → Option (Option (List HttpQuery))
  | .htrue => some (some [[]])
  | .heq f v => some (some [[(f.name, toStr v)]])
  | .hne _ _ => some none
  | .hgt _ _ => some none
  | .hlt _ _ => some none
  | .hand l r =>
    match l.toHttpMulti toStr, r.toHttpMulti toStr with
    | some ol, some orr =>
      some (match ol, orr with
        | some ls, some rs => some (cartQueries ls rs)
        | _, _ => none)
    | _, _ => none
  | .hor l r =>
    match l.toHttpMulti toStr, r.toHttpMulti toStr with
    | some ol, some orr =>
      some (match ol, orr with
        | some ls, some rs => some (ls ++ rs)
        | _, _ => none)
    | _, _ => none
  | .hxor l r =>
    match l.toHttpMulti toStr, r.toHttpMulti toStr with
    | some _, some _ => some none
    | _, _ => none
  | .hnot _ => some none
  | .heitherL _ => none
  | .heitherR _ => none

/-- A field environment maps a field name to its getter.  A query is
*env-consistent* when every field handle appearing in it agrees with the
environment — which holds for handles produced by the derive macro, where the
static name determines the getter. -/
def HQ.fieldsConsistent (env : String → α → V) : HQ α V → Prop
  | .htrue => True
  | .heq f _ => ∀ r, env f.name r = f.get r
  | .hne f _ => ∀ r, env f.name r = f.get r
  | .hgt f _ => ∀ r, env f.name r = f.get r
  | .hlt f _ => ∀ r, env f.name r = f.get r
  | .hand l rq => l.fieldsConsistent env ∧ rq.fieldsConsistent env
  | .hor l rq => l.fieldsConsistent env ∧ rq.fieldsConsistent env
  | .hxor l rq => l.fieldsConsistent env ∧ rq.fieldsConsistent env
  | .hnot q => q.fieldsConsistent env
  | .heitherL q => q.fieldsConsistent env
  | .heitherR q => q.fieldsConsistent env

/-- A record `r` satisfies a translated parameter pair `(name, s)` when the
string form of the field called `name` equals `s`. -/
def pairHolds (toStr : V → String) (env : String → α → V) (r : α)
    (p : String × String) : Prop :=
  toStr (env p.1 r) = p.2

/-- A record satisfies one part of a multi-translation when it satisfies every
parameter pair of the part, each read as a `field = value` equality. -/
def partHolds (toStr : V → String) (env : String → α → V) (r : α)
    (part : HttpQuery) : Prop :=
  ∀ p ∈ part, pairHolds toStr env r p

/-- The alternate (`{:#?}`) `Debug` rendering of `src/query/combinators.rs`,
with `toDebug` standing for the alternate rendering of the stored value.
The source writes `"{} = {:#?}"` for `Eq`, **and also for `Ne`, `Gt` and
`Lt`**; `And`/`Or`/`Xor` join the sides with `" & "`/`" | "`/`" ^ "`; `Not`
wraps in `!(…)`; `True` renders as `true`.  `Either`'s `Debug` comes from the
external `either` crate and is not modelled (`none`). -/
def HQ.debugAlt (toDebug : V → String) : HQ α V → Option String
  | .htrue => some "true"
  | .heq f v => some (f.name ++ " = " ++ toDebug v)
  | .hne f v => some (f.name ++ " = " ++ toDebug v)
  | .hgt f v => some (f.name ++ " = " ++ toDebug v)
  | .hlt f v => some (f.name ++ " = " ++ toDebug v)
  | .hand l r =>
    match l.debugAlt toDebug, r.debugAlt toDebug with
    | some a, some b => some (a ++ " & " ++ b)
    | _, _ => none
  | .hor l r =>
    match l.debugAlt toDebug, r.debugAlt toDebug with
    | some a, some b => some (a ++ " | " ++ b)
    | _, _ => none
  | .hxor l r =>
    match l.debugAlt toDebug, r.debugAlt toDebug with
    | some a, some b => some (a ++ " ^ " ++ b)
    | _, _ => none
  | .hnot q => (q.debugAlt toDebug).map (fun s => "!(" ++ s ++ ")")
  | .heitherL _ => none
  | .heitherR _ => none

/-! ## JSON codec (`src/encode/json.rs`)

Bytes are modelled as `List Nat`; `91`, `44` and `93` are `'['`, `','` and
`']'`.  The element encoder `f` stands for `Json::format`/`encode_one`
(`serde_json::to_vec` of one value), a total function on serializable
records. -/

/-- The byte-building loop of `Json::encode`: push `'['`; extend with the
first element if any; for each further element push `','` then extend; push
`']'`. -/
def jsonEncodeLoop (values : List (List Nat)) : List Nat :=
  (match values with
    | [] => [91]
    | v :: rest => rest.foldl (fun acc w => acc ++ 44 :: w) (91 :: v)) ++ [93]

/-- `Json::encode` of `src/encode/json.rs`.  It first computes the required
buffer capacity as `Σ len(value) + values.len() - 1 + 2`; on an empty input
the `usize` subtraction `values.len() - 1` overflows, which panics in builds
with overflow checks (the default for `cargo test`) — modelled as `none`.
Otherwise it assembles `'['`, the comma-separated elements, `']'`. -/
def jsonEncode (f : α → List Nat) (entries : List α) : Option (List Nat) :=
  let values := entries.map f
  if values.length = 0 then none
  else some (jsonEncodeLoop values)

/-- `Json::encode_all` of `src/encode/json.rs`: `serde_json::to_vec` applied
to the whole slice.  Per the JSON collaborator contract (§6 of the spec) and
`serde_json`'s sequence serializer, this is the compact array: `'['`, the
element-wise encodings joined by `','`, `']'`. -/
def jsonEncodeAll (f : α → List Nat) (entries : List α) : List Nat :=
  91 :: (List.intercalate [44] (entries.map f) ++ [93])

/-! ## `Encode` trait wiring (`src/encode.rs`)

A Rust trait implementation is modelled as a partial method assignment:
`some` for a method body the implementor provides, `none` otherwise.
Resolution applies the trait's default bodies.  In the source, `encode`
(the iterator entry point) and `encode_one` are *required* (no default),
while `encode_all` has the default body `self.encode(entries)`. -/

/-- The methods an implementor of `Encode` supplies. -/
structure EncodeMethods (τ : Type) where
  encode : Option (List τ → List Nat)
  encodeAll : Option (List τ → List Nat)
  encodeOne : Option (τ → List Nat)

/-- Resolution of `Encode::encode`: the source gives it no default body, so it
resolves only if provided. -/
def resolveEncode (m : EncodeMethods τ) : Option (List τ → List Nat) :=
  m.encode

/-- Resolution of `Encode::encode_all`: an override if provided, otherwise the
default body `self.encode(entries)` (which iterates the slice directly). -/
def resolveEncodeAll (m : EncodeMethods τ) : Option (List τ → List Nat) :=
  match m.encodeAll with
  | some g => some g
  | none => m.encode

/-- Resolution of `Encode::encode_one`: no default body in the source. -/
def resolveEncodeOne (m : EncodeMethods τ) : Option (τ → List Nat) :=
  m.encodeOne

/-! ## Single-record decoding and error conversion
(`src/encode.rs`, `src/errors.rs`) -/

/-- `DecodeOneError` of `src/errors.rs`, with the underlying decode error
abstract in `ε`. -/
inductive DecodeOneError (ε : Type) where
  | decodeErr (e : ε) : DecodeOneError ε
  | empty : DecodeOneError ε
  deriving DecidableEq

/-- `FetchError` of `src/errors.rs` (connection and query payloads abstract). -/
inductive FetchError (ε : Type) where
  | decodeErr (e : ε) : FetchError ε
  | invalidQuery : FetchError ε
  | connection : FetchError ε
  deriving DecidableEq

/-- `FetchOneError` of `src/errors.rs`. -/
inductive FetchOneError (ε : Type) where
  | fetch (f : FetchError ε) : FetchOneError ε
  | noSuchEntry : FetchOneError ε
  deriving DecidableEq

/-- The default `Decode::decode_one` of `src/encode.rs`, over an arbitrary
`decode_optional` (`dopt`):
`self.decode_optional(bytes).map_err(Decode)?.ok_or(Empty)`. -/
def decodeOne (dopt : List Nat → Except ε (Option τ)) (bytes : List Nat) :
    Except (DecodeOneError ε) τ :=
  match dopt bytes with
  | .error e => .error (.decodeErr e)
  | .ok none => .error .empty
  | .ok (some t) => .ok t

/-- `From<DecodeOneError> for FetchOneError` of `src/errors.rs`:
`Decode(err) ↦ Fetch(FetchError::Decode(err))`, `Empty ↦ NoSuchEntry`. -/
def fetchOneFromDecodeOne : DecodeOneError ε → FetchOneError ε
  | .decodeErr e => .fetch (.decodeErr e)
  | .empty => .noSuchEntry

/-- `Json`'s `decode_optional` of `src/encode/json.rs`, over an abstract
single-value parser (`serde_json::from_slice`): `Ok(None)` on empty input,
otherwise parse one value. -/
def jsonDecodeOptional (parse : List Nat → Except ε τ) (bytes : List Nat) :
    Except ε (Option τ) :=
  if bytes.isEmpty then .ok none else (parse bytes).map some

/-! ## REST connector builder (`src/rest/builder.rs`)

The builder's data fields (the typestate const parameters are type-level
bookkeeping and carry no data).  `κ` is the HTTP client type, `E`/`D`/`C` the
encoder/decoder/combined-codec types; URLs are modelled as strings and
`IntoUrl::into_url` as an abstract validation `parse : String → Option
String`. -/

/-- HTTP methods (only the ones the builder defaults use matter). -/
inductive HttpMethod where
  | get : HttpMethod
  | put : HttpMethod
  | post : HttpMethod
  | delete : HttpMethod
  deriving DecidableEq

/-- The data fields of `Builder` in `src/rest/builder.rs`. -/
structure BuilderState (E D C κ : Type) where
  sourceUrl : Option String
  sourceMethod : Option HttpMethod
  sinkUrl : Option String
  sinkMethod : Option HttpMethod
  client : Option κ
  encoder : Option E
  decoder : Option D
  combined : Option C
  deriving DecidableEq

/-- `Builder::new`: no fields set. -/
def builderNew : BuilderState E D C κ :=
  ⟨none, none, none, none, none, none, none, none⟩

/-- `Builder::source_url`: validates the URL, then stores it in
`source_url`. -/
def setSourceUrl (parse : String → Option String) (b : BuilderState E D C κ)
    (u : String) : Option (BuilderState E D C κ) :=
  (parse u).map (fun url => { b with sourceUrl := some url })

/-- `Builder::sink_url` as written in the source (line 303): validates the
URL, then stores it in **`source_url`** — not in `sink_url`. -/
def setSinkUrl (parse : String → Option String) (b : BuilderState E D C κ)
    (u : String) : Option (BuilderState E D C κ) :=
  (parse u).map (fun url => { b with sourceUrl := some url })

/-- `Builder::source_method`. -/
def setSourceMethod (b : BuilderState E D C κ) (m : HttpMethod) :
    BuilderState E D C κ :=
  { b with sourceMethod := some m }

/-- `Builder::sink_method`. -/
def setSinkMethod (b : BuilderState E D C κ) (m : HttpMethod) :
    BuilderState E D C κ :=
  { b with sinkMethod := some m }

/-- `Builder::client`. -/
def setClient (b : BuilderState E D C κ) (c : κ) : BuilderState E D C κ :=
  { b with client := some c }

/-- `Builder::encoder` (the `assert!(self.combined.is_none())` cannot fire
because the typestate admits this call only with `COMBINED = false`). -/
def setEncoder (b : BuilderState E D C κ) (e : E) : BuilderState E D C κ :=
  { b with encoder := some e }

/-- `Builder::decoder`. -/
def setDecoder (b : BuilderState E D C κ) (d : D) : BuilderState E D C κ :=
  { b with decoder := some d }

/-- `Builder::codec`: stores `Codec::combined(codec)` in `combined`. -/
def setCodec (b : BuilderState E D C κ) (c : C) : BuilderState E D C κ :=
  { b with combined := some c }

/-- The `WriteOnly` connector fields populated by `Build::build`
(`src/rest/builder.rs` lines 647–674). -/
structure WriteOnlyConn (E κ : Type) where
  url : String
  method : HttpMethod
  client : κ
  encoder : E
  deriving DecidableEq

/-- `Build::build` for the `WriteOnly` case: requires `sink_url` and
`encoder` to be present (otherwise the source's `unreachable!()` panics,
modelled as `none`); the method is `sink_method.unwrap_or(Method::GET)` as
written at line 668. -/
def buildWriteOnly (defaultClient : κ) (b : BuilderState E D C κ) :
    Option (WriteOnlyConn E κ) :=
  match b.sinkUrl, b.encoder with
  | some url, some enc =>
    some ⟨url, b.sinkMethod.getD .get, b.client.getD defaultClient, enc⟩
  | _, _ => none

/-- The `ReadWrite` connector fields populated by `Build::build`
(`src/rest/builder.rs` lines 677–710); the codec halves are kept as the
separate encoder and decoder. -/
structure ReadWriteConn (E D κ : Type) where
  sourceUrl : String
  sourceMethod : HttpMethod
  sinkUrl : String
  sinkMethod : HttpMethod
  client : κ
  encoder : E
  decoder : D
  deriving DecidableEq

/-- `Build::build` for the `ReadWrite` (separate encoder/decoder) case:
`source_method.unwrap_or(Method::GET)`, `sink_method.unwrap_or(Method::PUT)`. -/
def buildReadWrite (defaultClient : κ) (b : BuilderState E D C κ) :
    Option (ReadWriteConn E D κ) :=
  match b.sourceUrl, b.sinkUrl, b.encoder, b.decoder, b.combined with
  | some su, some ku, some enc, some dec, none =>
    some ⟨su, b.sourceMethod.getD .get, ku, b.sinkMethod.getD .put,
      b.client.getD defaultClient, enc, dec⟩
  | _, _, _, _, _ => none

/-! ## Concrete fixtures for witnesses and counterexamples -/

/-- A concrete record type matching the spec's scenario records
`{title: "Rust", author: "A"}`. -/
structure Book where
  title : String
  author : String
  deriving DecidableEq

/-- The field handle the derive macro would produce for `Book::title`. -/
def titleField : HField Book String := ⟨"title", Book.title⟩

/-- The field handle the derive macro would produce for `Book::author`. -/
def authorField : HField Book String := ⟨"author", Book.author⟩

/-- The name-to-getter environment for `Book`. -/
def bookEnv : String → Book → String := fun n r =>
  if n = "title" then r.title else if n = "author" then r.author else ""

/-- Boolean string order, standing in for `PartialOrd::lt` on field values. -/
def strLt : String → String → Bool := fun a b => decide (a < b)

/-- Boolean string order, standing in for `PartialOrd::gt` on field values. -/
def strGt : String → String → Bool := fun a b => decide (b < a)

/-- The alternate debug rendering of a string value (`{:#?}` quotes it). -/
def quoteStr (s : String) : String := "\"" ++ s ++ "\""

/-- A fresh builder with unit encoder/decoder/codec/client types. -/
def unitBuilder : BuilderState Unit Unit Unit Unit := builderNew

/-- The builder state reached before building a `WriteOnly` connector:
`sink_url` and `encoder` present, `sink_method` never set. -/
def writeOnlyFixture : BuilderState Unit Unit Unit Unit :=
  ⟨none, none, some "http://example.com/sink", none, none, some (), none, none⟩

/-- The builder state reached before building a `ReadWrite` connector with
separate encoder and decoder, neither HTTP method ever set. -/
def readWriteFixture : BuilderState Unit Unit Unit Unit :=
  ⟨some "http://example.com/source", none, some "http://example.com/sink",
    none, none, some (), some (), none⟩

/-- The builder produced by the buggy `sink_url` setter: the URL landed in
`source_url`. -/
def misplacedUrlBuilder : BuilderState Unit Unit Unit Unit :=
  ⟨some "http://example.com", none, none, none, none, none, none, none⟩

/-! ## Helper lemmas -/

theorem partHolds_append {toStr : V → String} {env : String → α → V} {r : α}
    {l m : HttpQuery} :
    partHolds toStr env r (l ++ m) ↔
      partHolds toStr env r l ∧ partHolds toStr env r m := by
  simp only [partHolds, List.mem_append, or_imp, forall_and]

theorem mem_cartQueries {ls rs : List HttpQuery} {part : HttpQuery} :
    part ∈ cartQueries ls rs ↔ ∃ l ∈ ls, ∃ rq ∈ rs, part = l ++ rq := by
  induction ls with
  | nil => simp [cartQueries]
  | cons l ls ih =>
    simp only [cartQueries, List.mem_append, List.mem_map, List.mem_cons, ih]
    constructor
    · rintro (⟨rq, hrq, hpart⟩ | ⟨l', hl', rq, hrq, hpart⟩)
      · exact ⟨l, Or.inl rfl, rq, hrq, hpart.symm⟩
      · exact ⟨l', Or.inr hl', rq, hrq, hpart⟩
    · rintro ⟨l', hl' | hl', rq, hrq, hpart⟩
      · exact Or.inl ⟨rq, hrq, (hl' ▸ hpart).symm⟩
      · exact Or.inr ⟨l', hl', rq, hrq, hpart⟩

/-! ## Claim theorems -/

/-- **C2.** Local evaluation follows naive Boolean semantics: `And` is `&&`,
`Or` is `||`, `Xor` is exclusive-or with both sides evaluated, `Not` is
negation, `True` is `true`, `Eq`/`Ne`/`Gt`/`Lt` compare the projected field
value against the stored value with `==`, `!=`, `>`, `<`, and `Either`
evaluates whichever variant it holds. -/
theorem evaluate_follows_naive_semantics [DecidableEq V]
    (lt gt : V → V → Bool) (a b q : HQ α V) (f : HField α V) (v : V) (r : α) :
    (HQ.hand a b).evaluate lt gt r = (a.evaluate lt gt r && b.evaluate lt gt r)
    ∧ (HQ.hor a b).evaluate lt gt r = (a.evaluate lt gt r || b.evaluate lt gt r)
    ∧ (HQ.hxor a b).evaluate lt gt r
        = (a.evaluate lt gt r).xor (b.evaluate lt gt r)
    ∧ (HQ.hnot q).evaluate lt gt r = !(q.evaluate lt gt r)
    ∧ (HQ.htrue : HQ α V).evaluate lt gt r = true
    ∧ (HQ.heq f v).evaluate lt gt r = (f.get r == v)
    ∧ (HQ.hne f v).evaluate lt gt r = (f.get r != v)
    ∧ (HQ.hgt f v).evaluate lt gt r = gt (f.get r) v
    ∧ (HQ.hlt f v).evaluate lt gt r = lt (f.get r) v
    ∧ (HQ.heitherL q).evaluate lt gt r = q.evaluate lt gt r
    ∧ (HQ.heitherR q).evaluate lt gt r = q.evaluate lt gt r :=
  ⟨rfl, rfl, rfl, rfl, rfl, rfl, rfl, rfl, rfl, rfl, rfl⟩

/-- **C5.** For `Ne`, `Gt`, `Lt` and `Not`, `to_http_single` returns an empty
parameter list with the node itself as the sole residue entry, and
`to_http_multi` returns `None` (translation impossible). -/
theorem untranslatable_nodes_full_residue (toStr : V → String)
    (f : HField α V) (v : V) (q : HQ α V) :
    (HQ.hne f v).toHttpSingle toStr = some ([], [HQ.hne f v])
    ∧ (HQ.hgt f v).toHttpSingle toStr = some ([], [HQ.hgt f v])
    ∧ (HQ.hlt f v).toHttpSingle toStr = some ([], [HQ.hlt f v])
    ∧ (HQ.hnot q).toHttpSingle toStr = some ([], [HQ.hnot q])
    ∧ (HQ.hne f v).toHttpMulti toStr = some none
    ∧ (HQ.hgt f v).toHttpMulti toStr = some none
    ∧ (HQ.hlt f v).toHttpMulti toStr = some none
    ∧ (HQ.hnot q).toHttpMulti toStr = some none :=
  ⟨rfl, rfl, rfl, rfl, rfl, rfl, rfl, rfl⟩

/-- **C6.** The default `decode_one` fails with `Empty` exactly when
`decode_optional` returns `None`; for the JSON decoder, `decode_optional`
returns `None` exactly on empty input; and converting `DecodeOneError` to the
Source-layer `FetchOneError` maps `Empty` to `NoSuchEntry` and `Decode` to a
`Decode` fetch error. -/
theorem decode_one_empty_matches_optional_none
    (dopt : List Nat → Except ε (Option τ)) (parse : List Nat → Except ε τ) :
    (∀ bytes, decodeOne dopt bytes = .error .empty ↔ dopt bytes = .ok none)
    ∧ (∀ bytes, jsonDecodeOptional parse bytes = .ok none ↔ bytes = [])
    ∧ (∀ e : ε, fetchOneFromDecodeOne (.decodeErr e) = .fetch (.decodeErr e))
    ∧ fetchOneFromDecodeOne (.empty : DecodeOneError ε) = .noSuchEntry := by
  refine ⟨fun bytes => ?_, fun bytes => ?_, fun e => rfl, rfl⟩
  · unfold decodeOne
    cases h : dopt bytes with
    | error e => simp
    | ok o => cases o <;> simp
  · unfold jsonDecodeOptional
    cases bytes with
    | nil => simp
    | cons b bs =>
      simp only [List.isEmpty_cons, if_false, Bool.false_eq_true, iff_false]
      cases parse (b :: bs) <;> simp [Except.map]

/-- **C9 (code bug).** The alternate debug rendering writes the infix
operator `=` not only for `Eq` but also for `Ne`, `Gt` and `Lt`: the query
`title != "Go"` renders as `title = "Go"`, while the spec's rendering would
be `title != "Go"`. -/
theorem alt_debug_renders_ne_gt_lt_with_eq_operator :
    (HQ.hne titleField "Go").debugAlt quoteStr = some "title = \"Go\""
    ∧ (HQ.hgt titleField "Go").debugAlt quoteStr = some "title = \"Go\""
    ∧ (HQ.hlt titleField "Go").debugAlt quoteStr = some "title = \"Go\""
    ∧ (HQ.hne titleField "Go").debugAlt quoteStr ≠ some "title != \"Go\""
    ∧ (HQ.heq titleField "Go").debugAlt quoteStr = some "title = \"Go\""
    ∧ (HQ.hand (HQ.heq titleField "Go") (HQ.heq authorField "A")).debugAlt
        quoteStr = some "title = \"Go\" & author = \"A\""
    ∧ (HQ.hnot (HQ.heq titleField "Go")).debugAlt quoteStr
        = some "!(title = \"Go\")" := by
  refine ⟨rfl, rfl, rfl, ?_, rfl, rfl, rfl⟩
  decide

/-- **C10 (code bug).** The `sink_url` setter stores the supplied URL in the
`source_url` field and leaves `sink_url` unset: starting from a fresh
builder, after `sink_url("http://example.com")` succeeds the builder's
`sink_url` field is `None` and its `source_url` field holds the URL. -/
theorem sink_url_setter_writes_source_url_field :
    setSinkUrl some unitBuilder "http://example.com" = some misplacedUrlBuilder
    ∧ (setSinkUrl some unitBuilder "http://example.com").map
        (fun b => b.sinkUrl) = some none
    ∧ (setSinkUrl some unitBuilder "http://example.com").map
        (fun b => b.sourceUrl) = some (some "http://example.com") :=
  ⟨rfl, rfl, rfl⟩

/-- **C8 (code bug).** A `WriteOnly` connector built without setting
`sink_method` uses `GET`, not the documented default `PUT`; the `ReadWrite`
build paths do default the sink method to `PUT`. -/
theorem write_only_build_defaults_sink_method_to_get :
    (buildWriteOnly () writeOnlyFixture).map (fun c => c.method) = some .get
    ∧ (buildWriteOnly () writeOnlyFixture).map (fun c => c.method)
      ≠ some .put
    ∧ (buildReadWrite () readWriteFixture).map (fun c => c.sinkMethod)
      = some .put
    ∧ (buildReadWrite () readWriteFixture).map (fun c => c.sourceMethod)
      = some .get := by
  refine ⟨by decide, by decide, by decide, by decide⟩

/-- **C4 (code bug).** `Json::encode` of the empty sequence panics (the
buffer-capacity computation `values.len() - 1` underflows in builds with
overflow checks), while `encode_all` of the empty slice returns the JSON
array `[]`; on nonempty sequences the two agree bit for bit. -/
theorem json_encode_empty_sequence_underflows :
    jsonEncode (fun n : Nat => [n]) [] = none
    ∧ jsonEncodeAll (fun n : Nat => [n]) [] = [91, 93]
    ∧ jsonEncode (fun n : Nat => [n]) [7, 8]
      = some (jsonEncodeAll (fun n : Nat => [n]) [7, 8])
    ∧ jsonEncode (fun n : Nat => [n]) [7]
      = some (jsonEncodeAll (fun n : Nat => [n]) [7]) := by
  refine ⟨rfl, by decide, by decide, by decide⟩

/-- **C7 counterexample.** In the source, `Encode::encode` has no default
body: a method assignment providing only `encode_all` and `encode_one` (the
claim's leaves) does not resolve `encode`, so it is not the case that every
implementation supplying the claim's leaves yields a working `encode`. -/
theorem encode_not_default_from_encode_all :
    ¬ ∀ m : EncodeMethods Nat,
        m.encodeAll.isSome ∧ m.encodeOne.isSome → (resolveEncode m).isSome := by
  intro h
  have := h ⟨none, some (fun _ => []), some (fun _ => [])⟩ ⟨rfl, rfl⟩
  simp [resolveEncode] at this

/-- **C7 (corrected).** In the Encode trait's default wiring, `encode_all`
(the slice entry point) is the defaulted method, delegating to `encode`;
`encode` (the iterator entry point) and `encode_one` are the leaves an
implementation must provide. -/
theorem encode_all_default_delegates_to_encode (m : EncodeMethods τ)
    (f : List τ → List Nat) (henc : m.encode = some f)
    (hall : m.encodeAll = none) :
    resolveEncodeAll m = some f ∧ resolveEncode m = some f
    ∧ resolveEncodeOne m = m.encodeOne := by
  simp [resolveEncodeAll, resolveEncode, resolveEncodeOne, hall, henc]

/-- Witness for the corrected C7 at a concrete method assignment. -/
theorem encode_all_default_delegates_to_encode_witness :
    resolveEncodeAll
        (⟨some (fun _ => [0]), none, some (fun _ => [1])⟩ : EncodeMethods Nat)
      = some (fun _ => [0])
    ∧ resolveEncode
        (⟨some (fun _ => [0]), none, some (fun _ => [1])⟩ : EncodeMethods Nat)
      = some (fun _ => [0])
    ∧ resolveEncodeOne
        (⟨some (fun _ => [0]), none, some (fun _ => [1])⟩ : EncodeMethods Nat)
      = some (fun _ => [1]) := by
  have h := encode_all_default_delegates_to_encode
    (⟨some (fun _ => [0]), none, some (fun _ => [1])⟩ : EncodeMethods Nat)
    (fun _ => [0]) rfl rfl
  exact ⟨h.1, h.2.1, h.2.2⟩

/-- **C1.** Residue completeness of the single HTTP translation: whenever
`ToHttp` is implemented for `Q` (`toHttpSingle … = some …`), every field
handle of `Q` agrees with the environment, and `Q.evaluate r` is true, the
record `r` satisfies every parameter pair of the `query` component — the pair
`(name, s)` read as "the string form of the field called `name` equals `s`".
The native form never excludes a record matching the original query. -/
theorem residue_completeness [DecidableEq V] (lt gt : V → V → Bool)
    (toStr : V → String) (env : String → α → V)
    (Q : HQ α V) (r : α) (pairs : HttpQuery) (res : List (HQ α V))
    (hc : Q.fieldsConsistent env)
    (he : Q.evaluate lt gt r = true)
    (ht : Q.toHttpSingle toStr = some (pairs, res)) :
    ∀ p ∈ pairs, pairHolds toStr env r p := by
  induction Q generalizing pairs res with
  | htrue =>
    simp only [HQ.toHttpSingle, Option.some.injEq, Prod.mk.injEq] at ht
    intro p hp
    rw [← ht.1] at hp
    simp at hp
  | heq f v =>
    simp only [HQ.toHttpSingle, Option.some.injEq, Prod.mk.injEq] at ht
    simp only [HQ.fieldsConsistent] at hc
    simp only [HQ.evaluate, beq_iff_eq] at he
    intro p hp
    rw [← ht.1] at hp
    simp only [List.mem_singleton] at hp
    subst hp
    unfold pairHolds
    rw [hc r, he]
  | hne f v =>
    simp only [HQ.toHttpSingle, Option.some.injEq, Prod.mk.injEq] at ht
    intro p hp
    rw [← ht.1] at hp
    simp at hp
  | hgt f v =>
    simp only [HQ.toHttpSingle, Option.some.injEq, Prod.mk.injEq] at ht
    intro p hp
    rw [← ht.1] at hp
    simp at hp
  | hlt f v =>
    simp only [HQ.toHttpSingle, Option.some.injEq, Prod.mk.injEq] at ht
    intro p hp
    rw [← ht.1] at hp
    simp at hp
  | hand l rq ihl ihr =>
    simp only [HQ.fieldsConsistent] at hc
    simp only [HQ.evaluate, Bool.and_eq_true] at he
    simp only [HQ.toHttpSingle] at ht
    cases hl : l.toHttpSingle toStr with
    | none => rw [hl] at ht; simp at ht
    | some s1 =>
      cases hr : rq.toHttpSingle toStr with
      | none => rw [hl, hr] at ht; simp at ht
      | some s2 =>
        obtain ⟨q1, r1⟩ := s1
        obtain ⟨q2, r2⟩ := s2
        rw [hl, hr] at ht
        simp only [Option.some.injEq, Prod.mk.injEq] at ht
        intro p hp
        rw [← ht.1] at hp
        rcases List.mem_append.1 hp with h1 | h2
        · exact ihl q1 r1 hc.1 he.1 hl p h1
        · exact ihr q2 r2 hc.2 he.2 hr p h2
  | hor l rq ihl ihr =>
    simp only [HQ.fieldsConsistent] at hc
    simp only [HQ.evaluate, Bool.or_eq_true] at he
    simp only [HQ.toHttpSingle] at ht
    cases hl : l.toHttpSingle toStr with
    | none => rw [hl] at ht; simp at ht
    | some s1 =>
      cases hr : rq.toHttpSingle toStr with
      | none => rw [hl, hr] at ht; simp at ht
      | some s2 =>
        obtain ⟨q1, r1⟩ := s1
        obtain ⟨q2, r2⟩ := s2
        rw [hl, hr] at ht
        simp only [Option.some.injEq, Prod.mk.injEq] at ht
        intro p hp
        rw [← ht.1] at hp
        have hmem := List.mem_filter.1 hp
        rcases he with hel | her
        · exact ihl q1 r1 hc.1 hel hl p hmem.1
        · exact ihr q2 r2 hc.2 her hr p (of_decide_eq_true hmem.2)
  | hxor l rq ihl ihr =>
    simp only [HQ.fieldsConsistent] at hc
    simp only [HQ.evaluate] at he
    simp only [HQ.toHttpSingle] at ht
    cases hl : l.toHttpSingle toStr with
    | none => rw [hl] at ht; simp at ht
    | some s1 =>
      cases hr : rq.toHttpSingle toStr with
      | none => rw [hl, hr] at ht; simp at ht
      | some s2 =>
        obtain ⟨q1, r1⟩ := s1
        obtain ⟨q2, r2⟩ := s2
        rw [hl, hr] at ht
        simp only [Option.some.injEq, Prod.mk.injEq] at ht
        intro p hp
        rw [← ht.1] at hp
        have hmem := List.mem_filter.1 hp
        cases hla : l.evaluate lt gt r with
        | true => exact ihl q1 r1 hc.1 hla hl p hmem.1
        | false =>
          rw [hla, Bool.false_xor] at he
          exact ihr q2 r2 hc.2 he hr p (of_decide_eq_true hmem.2)
  | hnot q ih =>
    simp only [HQ.toHttpSingle, Option.some.injEq, Prod.mk.injEq] at ht
    intro p hp
    rw [← ht.1] at hp
    simp at hp
  | heitherL q ih => simp [HQ.toHttpSingle] at ht
  | heitherR q ih => simp [HQ.toHttpSingle] at ht

/-- Witness for C1 on the scenario query
`title == "Rust" && author == "A"` and the record
`{title: "Rust", author: "A"}`: both translated parameter pairs hold. -/
theorem residue_completeness_witness :
    pairHolds id bookEnv (Book.mk "Rust" "A") ("title", "Rust")
    ∧ pairHolds id bookEnv (Book.mk "Rust" "A") ("author", "A") := by
  have h := residue_completeness strLt strGt id bookEnv
    (HQ.hand (HQ.heq titleField "Rust") (HQ.heq authorField "A"))
    (Book.mk "Rust" "A") [("title", "Rust"), ("author", "A")] []
    ⟨fun _ => rfl, fun _ => rfl⟩ (by decide) rfl
  exact ⟨h ("title", "Rust") (by simp), h ("author", "A") (by simp)⟩

/-- **C3.** Exactness of the multi HTTP translation: whenever `to_http_multi`
returns `Some parts` (inner `some`), a record satisfies `Q` exactly when it
satisfies at least one element of `parts`, each part read as a conjunction of
`field = value` string-equality predicates.  Needs every field handle of `Q`
to agree with the environment and the stringification to be injective (a
faithful display convention). -/
theorem multi_translation_exact [DecidableEq V] (lt gt : V → V → Bool)
    (toStr : V → String) (env : String → α → V)
    (hinj : ∀ a b : V, toStr a = toStr b → a = b)
    (Q : HQ α V) (r : α) (parts : List HttpQuery)
    (hc : Q.fieldsConsistent env)
    (ht : Q.toHttpMulti toStr = some (some parts)) :
    (Q.evaluate lt gt r = true ↔ ∃ part ∈ parts, partHolds toStr env r part) := by
  induction Q generalizing parts with
  | htrue =>
    simp only [HQ.toHttpMulti, Option.some.injEq] at ht
    rw [← ht]
    simp [HQ.evaluate, partHolds]
  | heq f v =>
    simp only [HQ.toHttpMulti, Option.some.injEq] at ht
    simp only [HQ.fieldsConsistent] at hc
    rw [← ht]
    simp only [HQ.evaluate, beq_iff_eq]
    constructor
    · intro he
      refine ⟨[(f.name, toStr v)], by simp, ?_⟩
      intro p hp
      simp only [List.mem_singleton] at hp
      subst hp
      unfold pairHolds
      rw [hc r, he]
    · rintro ⟨part, hpart, hsat⟩
      simp only [List.mem_singleton] at hpart
      subst hpart
      have hp := hsat (f.name, toStr v) (by simp)
      unfold pairHolds at hp
      rw [hc r] at hp
      exact hinj _ _ hp
  | hne f v => simp [HQ.toHttpMulti] at ht
  | hgt f v => simp [HQ.toHttpMulti] at ht
  | hlt f v => simp [HQ.toHttpMulti] at ht
  | hand l rq ihl ihr =>
    simp only [HQ.fieldsConsistent] at hc
    simp only [HQ.toHttpMulti] at ht
    cases hl : l.toHttpMulti toStr with
    | none => rw [hl] at ht; simp at ht
    | some ol =>
      cases hr : rq.toHttpMulti toStr with
      | none => rw [hl, hr] at ht; simp at ht
      | some orr =>
        rw [hl, hr] at ht
        cases ol with
        | none => simp at ht
        | some ls =>
          cases orr with
          | none => simp at ht
          | some rs =>
            simp only [Option.some.injEq] at ht
            rw [← ht]
            simp only [HQ.evaluate, Bool.and_eq_true]
            constructor
            · rintro ⟨hel, her⟩
              obtain ⟨pl, hpl, hsl⟩ := (ihl ls hc.1 hl).1 hel
              obtain ⟨pr, hpr, hsr⟩ := (ihr rs hc.2 hr).1 her
              exact ⟨pl ++ pr, mem_cartQueries.2 ⟨pl, hpl, pr, hpr, rfl⟩,
                partHolds_append.2 ⟨hsl, hsr⟩⟩
            · rintro ⟨part, hpart, hsat⟩
              obtain ⟨pl, hpl, pr, hpr, rfl⟩ := mem_cartQueries.1 hpart
              obtain ⟨hsl, hsr⟩ := partHolds_append.1 hsat
              exact ⟨(ihl ls hc.1 hl).2 ⟨pl, hpl, hsl⟩,
                (ihr rs hc.2 hr).2 ⟨pr, hpr, hsr⟩⟩
  | hor l rq ihl ihr =>
    simp only [HQ.fieldsConsistent] at hc
    simp only [HQ.toHttpMulti] at ht
    cases hl : l.toHttpMulti toStr with
    | none => rw [hl] at ht; simp at ht
    | some ol =>
      cases hr : rq.toHttpMulti toStr with
      | none => rw [hl, hr] at ht; simp at ht
      | some orr =>
        rw [hl, hr] at ht
        cases ol with
        | none => simp at ht
        | some ls =>
          cases orr with
          | none => simp at ht
          | some rs =>
            simp only [Option.some.injEq] at ht
            rw [← ht]
            simp only [HQ.evaluate, Bool.or_eq_true]
            rw [ihl ls hc.1 hl, ihr rs hc.2 hr]
            constructor
            · rintro (⟨part, hpart, hsat⟩ | ⟨part, hpart, hsat⟩)
              · exact ⟨part, List.mem_append.2 (Or.inl hpart), hsat⟩
              · exact ⟨part, List.mem_append.2 (Or.inr hpart), hsat⟩
            · rintro ⟨part, hpart, hsat⟩
              rcases List.mem_append.1 hpart with h | h
              · exact Or.inl ⟨part, h, hsat⟩
              · exact Or.inr ⟨part, h, hsat⟩
  | hxor l rq ihl ihr =>
    simp only [HQ.toHttpMulti] at ht
    cases hl : l.toHttpMulti toStr with
    | none => rw [hl] at ht; simp at ht
    | some ol =>
      cases hr : rq.toHttpMulti toStr with
      | none => rw [hl, hr] at ht; simp at ht
      | some orr => rw [hl, hr] at ht; simp at ht
  | hnot q ih => simp [HQ.toHttpMulti] at ht
  | heitherL q ih => simp [HQ.toHttpMulti] at ht
  | heitherR q ih => simp [HQ.toHttpMulti] at ht

/-- Witness for C3 on the scenario query `title == "X" || author == "X"`:
its multi-translation is `[[("title","X")], [("author","X")]]`, and
satisfaction of the query coincides with satisfaction of one part. -/
theorem multi_translation_exact_witness :
    ((HQ.hor (HQ.heq titleField "X") (HQ.heq authorField "X")).evaluate
        strLt strGt (Book.mk "X" "A") = true
      ↔ ∃ part ∈ [[("title", "X")], [("author", "X")]],
          partHolds id bookEnv (Book.mk "X" "A") part) :=
  multi_translation_exact strLt strGt id bookEnv (fun _ _ h => h)
    (HQ.hor (HQ.heq titleField "X") (HQ.heq authorField "X"))
    (Book.mk "X" "A") [[("title", "X")], [("author", "X")]]
    ⟨fun _ => rfl, fun _ => rfl⟩ rfl

end Broker
